import Mathlib

/-!
Shallow embedding of the event/animation coordination core of the motrix
terminal visualizer, together with proofs about the properties its
specification states.

Conventions of the embedding:
* machine integers are `Nat` (unsigned) or `Int` (signed / time points),
  with an explicit `% 256` (unsigned char) or `% 2 ^ 64` (u64) wherever the
  C++ type wraps;
* `monero::hash` (a 32-byte array compared bytewise with `memcmp`) is
  modelled as a `Nat` key: the claims proved here depend only on equality
  and ordering of hashes, both of which coincide with those of the
  big-endian numeric value of the 32 bytes;
* time points (`std::chrono::steady_clock::time_point`) are `Int`
  milliseconds;
* the `std::mt19937` draws made by `add_text` and `wait_for_pub` are passed
  in as explicit oracle arguments (`rnd`, `rand`), since no claim depends
  on the distribution of the draws;
* `zmq_z85_encode` (external libzmq) is passed in as an abstract function
  argument `z85 : Nat → List Char` producing the 41-char buffer
  (40 characters plus terminator); no claim depends on its internals,
  only on it being a fixed pure function of the hash;
* curses painting calls (`mvwaddch`, `wattron`, ...) have no effect on the
  program state the claims speak about and are omitted.
-/

namespace Motrix

/-- TEXT_SIZE from falling_text.cpp: characters per animation group. -/
def text_size : Nat := 40

/-- GROUP_COUNT from falling_text.cpp. -/
def group_count : Nat := 8

/-- COLOR_COUNT from falling_text.cpp. -/
def color_count : Nat := 2

/-- FALL_DELAY (text_fall_delay) from falling_text.cpp, in milliseconds. -/
def fall_delay : Int := 80

/-- max_block_hash_buffer from engine.cpp. -/
def max_block_hash_buffer : Nat := 50

/-- big_sync_interval from engine.cpp. -/
def big_sync_interval : Nat := 5000

/-- no_pubs_timeout from engine.cpp (5 minutes), in milliseconds. -/
def no_pubs_timeout : Int := 300000

/-- Modulus of the C++ type `unsigned char`. -/
def ucharMod : Nat := 256

/-- Largest value of `unsigned char` (std::numeric_limits<unsigned char>::max()). -/
def ucharMax : Nat := 255

/-- Modulus of the C++ type `std::uint64_t`. -/
def u64Mod : Nat := 2 ^ 64

/-- falling_text_location from falling_text.cpp: one animation slot. -/
structure falling_text_location where
  x : Int
  y : Int
  old_x : Int
  old_y : Int
  deriving Repr, DecidableEq

/-- falling_text_group from falling_text.cpp: a 40-char text plus the
progress counter `count` (an `unsigned char`, kept as a `Nat` below 256). -/
structure falling_text_group where
  text : List Char
  count : Nat
  deriving Repr, DecidableEq

/-- State of display::falling_text (falling_text.cpp): the eight groups,
the slot list, the paint deadline `next_` and the loading cursor `offset_`. -/
structure falling_text where
  groups : List falling_text_group
  locations : List falling_text_location
  next : Int
  offset : Nat
  deriving Repr, DecidableEq

/-- Helper: maps a function of the element index over a list, starting the
index at `n`; embeds the C++ `for (i = 0; i < v.size(); ++i)` update loops. -/
def mapIdxFrom (f : Nat → α → α) : Nat → List α → List α
  | _, [] => []
  | n, a :: as => f n a :: mapIdxFrom f (n + 1) as

/-- falling_text::add_text (falling_text.cpp lines 103-130).
`src` is the 41-char buffer (array<char, 41>); exactly its first 40
characters are copied (std::copy(src.begin(), src.end() - 1, ...)).
`rnd i` stands for the `(select_column(rand_), select_line(rand_))` draws
made for slot `i`. The group at the cursor gets the new text and
`count = 255`; every slot `i` with `i % group_count == offset_` records its
current position into `(old_x, old_y)` (with `old_y = y - text.size()`)
and takes fresh random coordinates; the cursor advances by one modulo
`group_count`. -/
def falling_text.add_text (st : falling_text) (src : List Char)
    (rnd : Nat → Int × Int) : falling_text where
  groups := st.groups.set st.offset ⟨src.take text_size, ucharMax⟩
  locations := mapIdxFrom
    (fun i loc =>
      if i % group_count = st.offset then
        ⟨(rnd i).1, (rnd i).2, loc.x, loc.y - (text_size : Int)⟩
      else loc) 0 st.locations
  next := st.next
  offset := (st.offset + 1) % group_count

/-- falling_text::draw_next (falling_text.cpp lines 132-182).
Returns `false` (and leaves the state alone) iff the active group
`groups_.at(offset_)` has `count == text.size()` or
`count == max<unsigned char> - 1`. Otherwise: every group's `count` is
incremented (unsigned char wrap), every slot with index below
`color_range * color_count` steps down by one cell (`++y; ++old_y` in the
second pass over `[color_range*color, color_range*(color+1))` for each
color), and the deadline becomes `now + text_fall_delay`. The curses
painting has no effect on this state. -/
def falling_text.draw_next (st : falling_text) (now : Int) :
    Bool × falling_text :=
  let active := st.groups.getD st.offset ⟨[], 0⟩
  if active.count = active.text.length ∨ active.count = ucharMax - 1 then
    (false, st)
  else
    let color_range := st.locations.length / color_count
    (true,
      { groups := st.groups.map fun g => ⟨g.text, (g.count + 1) % ucharMod⟩
        locations := mapIdxFrom
          (fun i loc =>
            if i < color_range * color_count then
              ⟨loc.x, loc.y + 1, loc.old_x, loc.old_y + 1⟩
            else loc) 0 st.locations
        next := now + fall_delay
        offset := st.offset })

/-- Runs falling_text::draw_next once per entry of `ts` (the `now` argument
of each call); yields `none` as soon as one call returns `false`.
Embeds a run of consecutive successful draw_next calls. -/
def runDraws : falling_text → List Int → Option falling_text
  | st, [] => some st
  | st, t :: ts =>
    match st.draw_next t with
    | (true, st') => runDraws st' ts
    | (false, _) => none

/-- Position of the first occurrence of byte `c`, as computed by
`std::memchr(data, c, size)` over the frame bytes. -/
def memchr (c : UInt8) : List UInt8 → Option Nat
  | [] => none
  | b :: bs => if b = c then some 0 else (memchr c bs).map (· + 1)

/-- pub::message::message (pub.cpp lines 39-49): topic/payload split of a
raw frame. `byte_slice::take_slice k` (removing and returning the first
`k` bytes) and `byte_slice::remove_prefix 1` are from byte_slice.hpp,
which is not under src/; they are modelled here by `List.take` and
`List.drop` exactly as the constructor composes them. When a ':' (byte 58)
is found at offset `k`, the topic is the first `k` bytes and the contents
lose the `topic + ':'` prefix; when no ':' is present, the topic stays
empty and the contents stay the whole raw frame. -/
def pubMessage (raw : List UInt8) : List UInt8 × List UInt8 :=
  match memchr 58 raw with
  | some k => (raw.take k, raw.drop (k + 1))
  | none => ([], raw)

/-- Wrapping u64 subtraction `a - b` for `a, b < 2 ^ 64`. -/
def sub_u64 (a b : Nat) : Nat := (a + u64Mod - b) % u64Mod

/-- The condition on which display_sync_progress (engine.cpp line 329)
resets (closes) the ZMQ_REQ client after a successful get_info:
`target_height - state.daemon_height <= big_sync_interval` evaluated over
`std::uint64_t`. -/
def close_rpc_after_info (target_height daemon_height : Nat) : Bool :=
  sub_u64 target_height daemon_height ≤ big_sync_interval

/-- The base85 cache entry from engine.cpp (struct base85): a 41-char
buffer plus the `cached` flag; `base85{}` zero-initializes both. -/
structure base85 where
  text : List Char
  cached : Bool
  deriving Repr, DecidableEq

instance : Inhabited base85 :=
  ⟨⟨List.replicate 41 (Char.ofNat 0), false⟩⟩

/-- One push into the block carousel, from the minimal-chain branch of
display_sync_progress (engine.cpp lines 353-356): pop the front when the
deque already holds max_block_hash_buffer entries, then emplace_back. -/
def push_block (chain : List (Nat × base85)) (h : Nat) :
    List (Nat × base85) :=
  (if max_block_hash_buffer ≤ chain.length then chain.drop 1 else chain)
    ++ [(h, default)]

/-- Membership test of a key in the std::map model (an association list
with unique keys; the claims proved here depend only on key membership,
not on the memcmp ordering of the tree). -/
def mapContains (m : List (Nat × base85)) (h : Nat) : Bool :=
  m.any fun e => e.1 = h

/-- std::map::erase by key: removes the entry with key `h`, if any. -/
def mapErase (m : List (Nat × base85)) (h : Nat) : List (Nat × base85) :=
  m.filter fun e => ¬ e.1 = h

/-- std::map::emplace: inserts `(h, v)` only when no entry with key `h`
exists (an existing entry is kept untouched). -/
def mapEmplace (m : List (Nat × base85)) (h : Nat) (v : base85) :
    List (Nat × base85) :=
  if mapContains m h then m else m ++ [(h, v)]

/-- Effect of sync_mempool (engine.cpp lines 253-267) on the txpool map:
`txpool.clear()`, then one `txpool.emplace(tx.tx_hash, base85{})` per
transaction of the get_transaction_pool RPC reply `rpcPool`. The RPC
socket churn has no effect on the pool. -/
def sync_mempool (rpcPool : List Nat) : List (Nat × base85) :=
  rpcPool.foldl (fun m h => mapEmplace m h default) []

/-- monero::block as consumed by the full-chain branch (monero_data.hpp is
not under src/; the two fields read by engine.cpp and listed in the spec's
FullChain schema are `prev_id` and `tx_hashes`). -/
structure block where
  prev_id : Nat
  tx_hashes : List Nat
  deriving Repr, DecidableEq

/-- The state display_txpool (engine.cpp lines 369-444) threads through
its STEADY loop, restricted to the fields the full-chain branch touches. -/
structure SteadyState where
  txpool : List (Nat × base85)
  last_txs_count : Nat
  full_block_prev : Nat
  minimal_block_prev : Nat
  current_head : Nat
  last_block_id : Nat
  daemon_height : Nat
  deriving Repr, DecidableEq

/-- show_system_warning (engine.cpp lines 269-279), restricted to its
effect on the tracked state: when `head_out` (current_head) differs from
`expected_head`, the mempool is resynchronized from the RPC reply
`rpcPool`; then `head_out` becomes `state.last_block_id`. The painted
warning box and the 16 s wait have no effect on this state. -/
def show_system_warning (st : SteadyState) (expected_head : Nat)
    (rpcPool : List Nat) : SteadyState :=
  let st1 :=
    if st.current_head ≠ expected_head then
      { st with txpool := sync_mempool rpcPool }
    else st
  { st1 with current_head := st1.last_block_id }

/-- The full-chain branch of display_txpool (engine.cpp lines 414-431):
record `last_txs_count` and `full_block_prev` from the last block, erase
every block's tx hashes from the txpool map, and, when the previously seen
`minimal_block_prev` matches the last block's `prev_id`, run
show_system_warning (which may resynchronize the mempool from the RPC
reply `rpcPool`). An empty message makes the code throw; the embedding
returns the state unchanged in that unreachable case. -/
def process_full_chain (st : SteadyState) (full_blocks : List block)
    (rpcPool : List Nat) : SteadyState :=
  match full_blocks.getLast? with
  | none => st
  | some back =>
    let st1 := { st with
      last_txs_count := back.tx_hashes.length
      full_block_prev := back.prev_id
      txpool := full_blocks.foldl
        (fun m bl => bl.tx_hashes.foldl mapErase m) st.txpool }
    if st1.minimal_block_prev = back.prev_id then
      show_system_warning st1 back.prev_id rpcPool
    else st1

/-- The guarded-indexing translation of the `minimal_block_prev`
computation in display_txpool (engine.cpp lines 404-405):
`ids.size() == 1 ? first_prev_id : ids[ids.size()]`, with the vector
subscript rendered as `List.get?` so an out-of-bounds read surfaces as
`none`. -/
def minimal_block_prev_of (first_prev_id : Nat) (ids : List Nat) :
    Option Nat :=
  if ids.length = 1 then some first_prev_id else ids.get? ids.length

/-- The mutable state of wait_for_pub's seeding machinery (engine.cpp
lines 182-224): the animation engine, the hash container `hashes` passed
by the caller (the block deque while syncing, the txpool map when steady;
both are lists of `(hash, base85)` entries here), the one-shot iterator
initialization flag, the iterator position `next` (an index into `hashes`;
`hashes.length` is `end()`), the uniform draw `rand` over
`[0, hashes.size()]` made at initialization, and the last observed block
id used as fallback. `emittedKeys` traces, per `add_text` call, the hash
whose rendering was emitted. -/
structure SeedState where
  ft : falling_text
  hashes : List (Nat × base85)
  init : Bool
  next : Nat
  rand : Nat
  last_block_id : Nat
  emittedKeys : List Nat

/-- One execution of the seeding body (engine.cpp lines 199-222), run when
draw_next returned false. With a non-empty container: on first entry the
iterator is placed `rand` steps past `begin()`; an iterator at `end()`
wraps to `begin()`; the entry's base85 text is computed via `z85` only
when not yet cached, the cached flag is set, and the (possibly freshly
cached) text is fed to add_text. The iterator is left where it is. With an
empty container, the last observed block id is encoded and fed instead. -/
def seedBody (z85 : Nat → List Char) (rnd : Nat → Int × Int)
    (s : SeedState) : SeedState :=
  if s.hashes.isEmpty then
    { s with
      ft := s.ft.add_text (z85 s.last_block_id) rnd
      emittedKeys := s.emittedKeys ++ [s.last_block_id] }
  else
    let nx0 := if s.init then s.next else s.rand
    let nx := if nx0 = s.hashes.length then 0 else nx0
    let e := s.hashes.getD nx (0, default)
    let text := if e.2.cached then e.2.text else z85 e.1
    { s with
      init := true
      next := nx
      hashes := s.hashes.set nx (e.1, ⟨text, true⟩)
      ft := s.ft.add_text text rnd
      emittedKeys := s.emittedKeys ++ [e.1] }

/-- The inner `while (!state.text.draw_next(now))` loop of wait_for_pub
(engine.cpp lines 197-223): keep seeding until a draw_next call succeeds.
`fuel` bounds the number of iterations; exhaustion yields `none`. -/
def seedLoop (z85 : Nat → List Char) (rnd : Nat → Int × Int) :
    Nat → SeedState → Int → Option SeedState
  | 0, _, _ => none
  | fuel + 1, s, now =>
    match s.ft.draw_next now with
    | (true, ft') => some { s with ft := ft' }
    | (false, _) => seedLoop z85 rnd fuel (seedBody z85 rnd s) now

/-- The descriptors that appear in the poll sets of the core. -/
inductive PollFd
  | sub
  | exit
  deriving DecidableEq, Repr

/-- The poll set of the timed subscription poll inside wait_for_pub
(engine.cpp line 232): `zmq_pollitem_t item[1] = \x7b\x7bstate.sub.get(), 0,
ZMQ_POLLIN\x7d\x7d` — the sub socket alone. -/
def wait_for_pub_poll_set : List PollFd := [PollFd.sub]

/-- The poll set of zmq::wait_for (zmq.cpp line 207): the sub socket and
the engine exit (wake) descriptor. -/
def zmq_wait_for_poll_set : List PollFd := [PollFd.sub, PollFd.exit]

/-- The poll set of the sleeping helper wait_for (engine.cpp line 107):
the exit descriptor alone. -/
def sleep_wait_poll_set : List PollFd := [PollFd.exit]

/-- Errors of the zmq error category that the embedding distinguishes. -/
inductive ZErr
  | eterm
  | eagain
  | other
  deriving DecidableEq, Repr

/-- zmq::wait_for (zmq.cpp lines 205-212): blocks until a descriptor of
`zmq_wait_for_poll_set` is ready (`ready` gives the readiness of each
descriptor when the poll returns) and yields the distinguished ETERM error
exactly when the exit descriptor (`items[1]`) reports POLLIN. -/
def zmq_wait_for (ready : PollFd → Bool) : Except ZErr Unit :=
  if ready PollFd.exit then Except.error ZErr.eterm else Except.ok ()

/-- Outcome of a zmq::receive(sub, ZMQ_DONTWAIT) attempt. -/
inductive RecvRes
  | frame (raw : List UInt8)
  | err (e : ZErr)

/-- The per-iteration external observations of wait_for_pub's loop: the
sub-socket readiness reported by the timed poll, the receive outcome, the
steady_clock reading taken inside the `text_delay` computation and the one
taken at the bottom of the iteration. -/
structure IterObs where
  pollReady : Bool
  recv : RecvRes
  nowMid : Int
  nowEnd : Int

/-- wait_for_pub (engine.cpp lines 181-251): the coordination loop's inner
wait. Arguments after `start`: remaining fuel, the iteration index `k`
(selecting `running k` — the engine::is_running() reading — and `obs k`),
the current `now`, the accumulated `slippage`, and the seeding state.
Per iteration: exit with ETERM when no longer running; return the
synthetic empty message once `no_pubs_timeout` has elapsed since `start`;
run the draw/seed loop when the paint deadline has passed; compute
`text_delay`, poll the sub socket with it when positive (else treat as
ready); on ready, receive: a frame returns as a pub message, an error
returns when `text_delay` was positive or the error is not EAGAIN;
otherwise refresh `now` and `slippage` and iterate. -/
def waitForPub (z85 : Nat → List Char) (rnd : Nat → Int × Int)
    (running : Nat → Bool) (obs : Nat → IterObs) (seedFuel : Nat)
    (start : Int) :
    Nat → Nat → Int → Int → SeedState →
      Option (Except ZErr (List UInt8 × List UInt8))
  | 0, _, _, _, _ => none
  | fuel + 1, k, now, slippage, s =>
    if running k = false then some (Except.error ZErr.eterm)
    else if no_pubs_timeout ≤ now - start then
      some (Except.ok (pubMessage []))
    else
      match if s.ft.next ≤ now then seedLoop z85 rnd seedFuel s now
            else some s with
      | none => none
      | some s1 =>
        let o := obs k
        let text_delay := (s1.ft.next - o.nowMid) - slippage
        let ready := if 0 < text_delay then o.pollReady else true
        if ready then
          match o.recv with
          | RecvRes.frame raw => some (Except.ok (pubMessage raw))
          | RecvRes.err e =>
            if 0 < text_delay ∨ e ≠ ZErr.eagain then
              some (Except.error e)
            else
              waitForPub z85 rnd running obs seedFuel start fuel (k + 1)
                o.nowEnd (o.nowEnd - s1.ft.next) s1
        else
          waitForPub z85 rnd running obs seedFuel start fuel (k + 1)
            o.nowEnd (o.nowEnd - s1.ft.next) s1

/-- Modelled from the spec: the round-robin identifier emission the spec
ascribes to `next_identifier` — starting at position `start`, the `j`-th
seeding emits the identifier at index `(start + j) mod size` of the
store. Stated only to be compared against the source's seeding behavior. -/
def roundRobinKeys (keys : List Nat) (start k : Nat) : List Nat :=
  (List.range k).map fun j => keys.getD ((start + j) % keys.length) 0

/-- Fixture: a 40-char group text used by concrete instances. -/
def demoText : List Char := List.replicate 40 'a'

/-- Fixture: a 41-char add_text source buffer. -/
def demoSrc : List Char := List.replicate 41 'b'

/-- Fixture: a degenerate coordinate oracle. -/
def rnd0 : Nat → Int × Int := fun _ => (0, 0)

/-- Fixture: a constant stand-in for the z85 encoder. -/
def z85demo : Nat → List Char := fun _ => List.replicate 41 'c'

/-- Fixture: a falling_text state whose group 0 and group 1 are fully
rendered (count 40) and whose remaining groups are mid-flight. -/
def demoFT : falling_text :=
  ⟨[⟨demoText, 40⟩, ⟨demoText, 40⟩, ⟨demoText, 0⟩, ⟨demoText, 0⟩,
    ⟨demoText, 0⟩, ⟨demoText, 0⟩, ⟨demoText, 0⟩, ⟨demoText, 0⟩], [], 0, 0⟩

/-- Fixture: a falling_text state with one fully-rendered group at the
cursor, used to drive consecutive seedings. -/
def demoSeed : SeedState :=
  ⟨demoFT, [(1, default), (2, default)], false, 0, 0, 9, []⟩

/-- Fixture: a falling_text state whose group 1 is mid-flight far from
both stop values, so a long run of draw_next calls succeeds after an
add_text into group 0. -/
def demoFT2 : falling_text :=
  ⟨[⟨demoText, 0⟩, ⟨demoText, 100⟩, ⟨demoText, 0⟩, ⟨demoText, 0⟩,
    ⟨demoText, 0⟩, ⟨demoText, 0⟩, ⟨demoText, 0⟩, ⟨demoText, 0⟩], [], 0, 0⟩

/-- Fixture: a SeedState whose iterator is already initialized. -/
def demoSeed2 : SeedState :=
  ⟨demoFT, [(1, default), (2, default)], true, 0, 0, 9, []⟩

theorem get?_set_of_ne (l : List α) (i j : Nat) (a : α) (h : ¬ i = j) :
    (l.set i a).get? j = l.get? j := by
  induction l generalizing i j with
  | nil => simp
  | cons b bs ih =>
    cases i with
    | zero =>
      cases j with
      | zero => exact absurd rfl h
      | succ j' => simp [List.set]
    | succ i' =>
      cases j with
      | zero => simp [List.set]
      | succ j' => simpa [List.set] using ih i' j' (by omega)

theorem get?_set_self (l : List α) (i : Nat) (a : α) (h : i < l.length) :
    (l.set i a).get? i = some a := by
  induction l generalizing i with
  | nil => simp at h
  | cons b bs ih =>
    cases i with
    | zero => rfl
    | succ i' => simpa [List.set] using ih i' (by simpa using h)

theorem get?_mapIdxFrom (f : Nat → α → α) (l : List α) (n i : Nat) :
    (mapIdxFrom f n l).get? i = (l.get? i).map (f (n + i)) := by
  induction l generalizing n i with
  | nil => simp [mapIdxFrom]
  | cons a as ih =>
    cases i with
    | zero => simp [mapIdxFrom]
    | succ i' =>
      have harith : n + 1 + i' = n + (i' + 1) := by omega
      simpa [mapIdxFrom, harith] using ih (n + 1) i'

theorem draw_next_true_effect (st : falling_text) (now : Int)
    (h : (st.draw_next now).1 = true) :
    (st.draw_next now).2.groups =
      st.groups.map (fun g => ⟨g.text, (g.count + 1) % ucharMod⟩) ∧
    (st.draw_next now).2.offset = st.offset ∧
    (st.draw_next now).2.next = now + fall_delay := by
  by_cases hc :
      ((st.groups.getD st.offset ⟨[], 0⟩).count =
        (st.groups.getD st.offset ⟨[], 0⟩).text.length ∨
       (st.groups.getD st.offset ⟨[], 0⟩).count = ucharMax - 1)
  · simp only [falling_text.draw_next] at h
    rw [if_pos hc] at h
    simp at h
  · simp only [falling_text.draw_next]
    rw [if_neg hc]
    exact ⟨rfl, rfl, rfl⟩

theorem draw_next_false_of_done (st : falling_text) (now : Int)
    (hc : (st.groups.getD st.offset ⟨[], 0⟩).count =
        (st.groups.getD st.offset ⟨[], 0⟩).text.length) :
    st.draw_next now = (false, st) := by
  simp only [falling_text.draw_next]
  rw [if_pos (Or.inl hc)]

theorem map_count_zero (gs : List falling_text_group)
    (hb : ∀ g ∈ gs, g.count < ucharMod) :
    gs.map (fun g => ⟨g.text, (g.count + 0) % ucharMod⟩) = gs := by
  induction gs with
  | nil => rfl
  | cons g rest ih =>
    simp only [List.map_cons, List.cons.injEq]
    constructor
    · have hlt : g.count < ucharMod := hb g (List.mem_cons_self _ _)
      cases g with
      | mk tx c => simp [Nat.mod_eq_of_lt hlt]
    · exact ih fun x hx => hb x (List.mem_cons_of_mem _ hx)

theorem map_count_add (gs : List falling_text_group) (k : Nat) :
    (gs.map (fun g =>
        falling_text_group.mk g.text ((g.count + 1) % ucharMod))).map
      (fun g => falling_text_group.mk g.text ((g.count + k) % ucharMod)) =
    gs.map (fun g =>
        falling_text_group.mk g.text ((g.count + (k + 1)) % ucharMod)) := by
  induction gs with
  | nil => rfl
  | cons g rest ih =>
    simp only [List.map_cons, List.cons.injEq]
    refine ⟨?_, ih⟩
    have harith : ((g.count + 1) % ucharMod + k) % ucharMod =
        (g.count + (k + 1)) % ucharMod := by
      unfold ucharMod
      omega
    simp [harith]

theorem runDraws_effect (ts : List Int) :
    ∀ st st' : falling_text, runDraws st ts = some st' →
      (∀ g ∈ st.groups, g.count < ucharMod) →
      st'.groups = st.groups.map
        (fun g => ⟨g.text, (g.count + ts.length) % ucharMod⟩) ∧
      st'.offset = st.offset := by
  induction ts with
  | nil =>
    intro st st' h hb
    simp only [runDraws, Option.some.injEq] at h
    subst h
    exact ⟨(map_count_zero st.groups hb).symm, rfl⟩
  | cons t ts ih =>
    intro st st' h hb
    unfold runDraws at h
    cases hdt : st.draw_next t with
    | mk b st1 =>
      rw [hdt] at h
      cases b with
      | false => simp at h
      | true =>
        have heff := draw_next_true_effect st t (by rw [hdt])
        rw [hdt] at heff
        have hb1 : ∀ g ∈ st1.groups, g.count < ucharMod := by
          rw [heff.1]
          intro g hg
          obtain ⟨g0, _, rfl⟩ := List.mem_map.mp hg
          exact Nat.mod_lt _ (by norm_num [ucharMod])
        obtain ⟨hgr, hof⟩ := ih st1 st' h hb1
        refine ⟨?_, by rw [hof, heff.2.1]⟩
        rw [hgr, heff.1, map_count_add]
        simp [List.length_cons]

theorem push_block_length_le (c : List (Nat × base85)) (h : Nat)
    (hc : c.length ≤ max_block_hash_buffer) :
    (push_block c h).length ≤ max_block_hash_buffer := by
  unfold push_block max_block_hash_buffer at *
  split
  · simp only [List.length_append, List.length_drop, List.length_cons,
      List.length_nil]
    omega
  · simp only [List.length_append, List.length_cons, List.length_nil]
    omega

theorem memchr_eq_none (c : UInt8) (l : List UInt8)
    (h : ∀ b ∈ l, ¬ b = c) : memchr c l = none := by
  induction l with
  | nil => rfl
  | cons b bs ih =>
    unfold memchr
    rw [if_neg (h b (List.mem_cons_self b bs)),
      ih fun x hx => h x (List.mem_cons_of_mem b hx)]
    rfl

theorem memchr_eq_some_of_first (c : UInt8) (l : List UInt8) (k : Nat)
    (hk : l.get? k = some c) (hbefore : ∀ j, j < k → l.get? j ≠ some c) :
    memchr c l = some k := by
  induction l generalizing k with
  | nil => simp at hk
  | cons b bs ih =>
    by_cases hb : b = c
    · cases k with
      | zero => simp [memchr, hb]
      | succ k' =>
        exact absurd (by simp [hb]) (hbefore 0 (Nat.succ_pos _))
    · cases k with
      | zero =>
        simp only [List.get?, Option.some.injEq] at hk
        exact absurd hk hb
      | succ k' =>
        have h1 : bs.get? k' = some c := by simpa using hk
        have h2 : ∀ j, j < k' → bs.get? j ≠ some c := by
          intro j hj
          simpa using hbefore (j + 1) (by omega)
        simp [memchr, hb, ih k' h1 h2]

theorem get?_map_comm (f : α → β) (l : List α) (i : Nat) :
    (l.map f).get? i = (l.get? i).map f := by
  induction l generalizing i with
  | nil => simp
  | cons a as ih =>
    cases i with
    | zero => rfl
    | succ i' => exact ih i'

theorem getD_of_get?_eq (l : List α) (i : Nat) (a d : α)
    (h : l.get? i = some a) : l.getD i d = a := by
  induction l generalizing i with
  | nil => simp at h
  | cons b bs ih =>
    cases i with
    | zero =>
      simp only [List.get?, Option.some.injEq] at h
      simp [List.getD, h]
    | succ i' =>
      simp only [List.get?] at h
      simpa [List.getD] using ih i' h

theorem mapContains_mapErase_self (m : List (Nat × base85)) (h : Nat) :
    mapContains (mapErase m h) h = false := by
  induction m with
  | nil => rfl
  | cons e rest ih =>
    by_cases he : e.1 = h
    · have hstep : mapErase (e :: rest) h = mapErase rest h := by
        simp [mapErase, List.filter_cons, he]
      rw [hstep]
      exact ih
    · have hstep : mapErase (e :: rest) h = e :: mapErase rest h := by
        simp [mapErase, List.filter_cons, he]
      rw [hstep]
      simp only [mapContains, List.any_cons] at ih ⊢
      simp [he, ih]

theorem mapContains_mapErase_of_not (m : List (Nat × base85)) (h h' : Nat)
    (hm : mapContains m h = false) :
    mapContains (mapErase m h') h = false := by
  induction m with
  | nil => rfl
  | cons e rest ih =>
    simp only [mapContains, List.any_cons, Bool.or_eq_false_iff,
      decide_eq_false_iff_not] at hm
    by_cases he : e.1 = h'
    · simpa [mapErase, List.filter_cons, he] using ih hm.2
    · simpa [mapErase, mapContains, List.filter_cons, he, hm.1] using ih hm.2

theorem mapContains_foldl_mapErase_of_not (hs : List Nat)
    (m : List (Nat × base85)) (h : Nat) (hm : mapContains m h = false) :
    mapContains (hs.foldl mapErase m) h = false := by
  induction hs generalizing m with
  | nil => exact hm
  | cons a as ih =>
    exact ih (mapErase m a) (mapContains_mapErase_of_not m h a hm)

theorem mapContains_foldl_mapErase_of_mem (hs : List Nat)
    (m : List (Nat × base85)) (h : Nat) (hm : h ∈ hs) :
    mapContains (hs.foldl mapErase m) h = false := by
  induction hs generalizing m with
  | nil => simp at hm
  | cons a as ih =>
    rcases List.mem_cons.mp hm with rfl | hmem
    · exact mapContains_foldl_mapErase_of_not as (mapErase m h) h
        (mapContains_mapErase_self m h)
    · exact ih (mapErase m a) hmem

theorem mapContains_foldl_blocks_of_not (bls : List block)
    (m : List (Nat × base85)) (h : Nat) (hm : mapContains m h = false) :
    mapContains
      (bls.foldl (fun m bl => bl.tx_hashes.foldl mapErase m) m) h = false := by
  induction bls generalizing m with
  | nil => exact hm
  | cons bl rest ih =>
    exact ih _ (mapContains_foldl_mapErase_of_not bl.tx_hashes m h hm)

theorem mapContains_foldl_blocks_of_mem (bls : List block)
    (m : List (Nat × base85)) (h : Nat)
    (hm : ∃ bl ∈ bls, h ∈ bl.tx_hashes) :
    mapContains
      (bls.foldl (fun m bl => bl.tx_hashes.foldl mapErase m) m) h = false := by
  induction bls generalizing m with
  | nil => simp at hm
  | cons bl rest ih =>
    obtain ⟨bl', hbl', hh⟩ := hm
    rcases List.mem_cons.mp hbl' with rfl | hmem
    · exact mapContains_foldl_blocks_of_not rest _ h
        (mapContains_foldl_mapErase_of_mem bl'.tx_hashes m h hh)
    · exact ih _ ⟨bl', hmem, hh⟩

theorem mapContains_mapEmplace_of_ne (m : List (Nat × base85))
    (k h : Nat) (v : base85) (hne : ¬ k = h) :
    mapContains (mapEmplace m k v) h = mapContains m h := by
  unfold mapEmplace
  split
  · rfl
  · simp [mapContains, List.any_append, hne]

theorem mapContains_sync_mempool (rpcPool : List Nat) (h : Nat)
    (hh : h ∉ rpcPool) : mapContains (sync_mempool rpcPool) h = false := by
  have key : ∀ (pool : List Nat) (m : List (Nat × base85)),
      mapContains m h = false → h ∉ pool →
      mapContains (pool.foldl (fun m k => mapEmplace m k default) m) h
        = false := by
    intro pool
    induction pool with
    | nil => intro m hm _; exact hm
    | cons a as ih =>
      intro m hm hp
      have hane : ¬ a = h := fun hc => hp (by simp [hc])
      refine ih (mapEmplace m a default) ?_ fun hc => hp (by simp [hc])
      rw [mapContains_mapEmplace_of_ne m a h default hane, hm]
  exact key rpcPool [] rfl hh

/-- C1: in the STEADY view, when a minimal-chain frame with more than one
id is processed, the `minimal_block_prev` computation of display_txpool
indexes one past the last element of `ids`; under guarded indexing the
selected index is out of bounds, so the computation yields `none`. -/
theorem C1_minimal_block_prev_out_of_bounds (first_prev_id : Nat)
    (ids : List Nat) (h : 1 < ids.length) :
    minimal_block_prev_of first_prev_id ids = none := by
  unfold minimal_block_prev_of
  rw [if_neg (by omega)]
  exact List.get?_eq_none.mpr (le_refl _)

/-- Witness for C1 at the two-element id list. -/
theorem C1_witness :
    1 < ([3, 4] : List Nat).length ∧ minimal_block_prev_of 7 [3, 4] = none :=
  ⟨by decide, C1_minimal_block_prev_out_of_bounds 7 [3, 4] (by decide)⟩

/-- C8: after any successful draw_next call with argument `now`, the
engine's paint deadline `next_fall` equals `now + FALL_DELAY`. -/
theorem C8_deadline_after_draw (st : falling_text) (now : Int)
    (h : (st.draw_next now).1 = true) :
    (st.draw_next now).2.next = now + fall_delay :=
  (draw_next_true_effect st now h).2.2

/-- Witness for C8 on a concrete mid-flight state. -/
theorem C8_witness :
    ((falling_text.mk [⟨demoText, 0⟩] [] 0 0).draw_next 5).1 = true ∧
    ((falling_text.mk [⟨demoText, 0⟩] [] 0 0).draw_next 5).2.next =
      5 + fall_delay :=
  ⟨by decide, C8_deadline_after_draw ⟨[⟨demoText, 0⟩], [], 0, 0⟩ 5 (by decide)⟩

/-- C9: after any sequence of block pushes starting from the empty block
carousel, the carousel holds at most max_block_hash_buffer entries. -/
theorem C9_block_carousel_cap (hs : List Nat) :
    (hs.foldl push_block []).length ≤ max_block_hash_buffer := by
  have key : ∀ (hs : List Nat) (c : List (Nat × base85)),
      c.length ≤ max_block_hash_buffer →
      (hs.foldl push_block c).length ≤ max_block_hash_buffer := by
    intro hs
    induction hs with
    | nil => intro c hc; exact hc
    | cons a as ih => intro c hc; exact ih _ (push_block_length_le c a hc)
  exact key hs [] (by simp [max_block_hash_buffer])

/-- C4 (amended): the dispatcher splits a raw frame on the first ':' byte
into topic and payload; when the frame holds no ':' byte, the topic is
empty and the payload is the whole raw frame (so the empty-topic
empty-payload marker arises exactly from an empty raw frame). -/
theorem C4_topic_split (raw : List UInt8) :
    (∀ k, raw.get? k = some 58 → (∀ j, j < k → raw.get? j ≠ some 58) →
      pubMessage raw = (raw.take k, raw.drop (k + 1))) ∧
    ((∀ b ∈ raw, ¬ b = 58) → pubMessage raw = ([], raw)) := by
  constructor
  · intro k hk hb
    unfold pubMessage
    rw [memchr_eq_some_of_first 58 raw k hk hb]
  · intro hno
    unfold pubMessage
    rw [memchr_eq_none 58 raw hno]

/-- Counterexample for C4 as stated: the frame `[0x61]` holds no ':' byte,
yet the dispatcher yields the whole frame as payload, not an empty one. -/
theorem C4_cex_no_colon_keeps_payload :
    (∀ b ∈ ([97] : List UInt8), ¬ b = 58) ∧
    pubMessage [97] ≠ (([] : List UInt8), ([] : List UInt8)) ∧
    pubMessage [97] = ([], [97]) := by
  refine ⟨by decide, by decide, by decide⟩

/-- Witness for C4 on a frame with a colon and on a colon-free frame. -/
theorem C4_witness :
    pubMessage [97, 58, 98] = ([97], [98]) ∧ pubMessage [99] = ([], [99]) := by
  constructor
  · exact (C4_topic_split [97, 58, 98]).1 1 (by decide)
      (fun j hj => by interval_cases j; decide)
  · exact (C4_topic_split [99]).2 (by decide)

/-- C5 (amended): after a connected get_info while syncing, the RPC client
is closed exactly when the wrapping u64 subtraction
`target_height - daemon_height` is at most BIG_SYNC_INTERVAL: when the
daemon is not past its target this is the integer condition, but when
`daemon_height` exceeds `target_height` the subtraction wraps, and the
client stays open unless the excess reaches `2 ^ 64 - BIG_SYNC_INTERVAL`. -/
theorem C5_close_rpc_iff (t d : Nat) (ht : t < u64Mod) (hd : d < u64Mod) :
    close_rpc_after_info t d = true ↔
      ((d ≤ t ∧ t - d ≤ big_sync_interval) ∨
       (t < d ∧ u64Mod - (d - t) ≤ big_sync_interval)) := by
  unfold close_rpc_after_info sub_u64 u64Mod big_sync_interval at *
  simp only [decide_eq_true_eq]
  have hpow : (2 : Nat) ^ 64 = 18446744073709551616 := by norm_num
  rw [hpow] at *
  omega

/-- Counterexample for C5 as stated: with `target_height = 100` and
`daemon_height = 101` the mathematical difference is at most
BIG_SYNC_INTERVAL, yet the u64 computation wraps and the client is not
closed. -/
theorem C5_cex_wrapped_subtraction :
    ((100 : Int) - 101 ≤ 5000) ∧ close_rpc_after_info 100 101 = false := by
  refine ⟨by decide, by decide⟩

/-- Witness for C5 in the near-target case. -/
theorem C5_witness :
    close_rpc_after_info 100 90 = true ∧
    (100 : Nat) < u64Mod ∧ (90 : Nat) < u64Mod :=
  ⟨(C5_close_rpc_iff 100 90 (by decide) (by decide)).mpr
      (Or.inl ⟨by decide, by decide⟩),
    by decide, by decide⟩

theorem seedBody_nonempty (z85 : Nat → List Char) (rnd : Nat → Int × Int)
    (s : SeedState) (hne : s.hashes.isEmpty = false) (hinit : s.init = true) :
    seedBody z85 rnd s =
      { s with
        init := true
        next := if s.next = s.hashes.length then 0 else s.next
        hashes := s.hashes.set
          (if s.next = s.hashes.length then 0 else s.next)
          ((s.hashes.getD
              (if s.next = s.hashes.length then 0 else s.next)
              (0, default)).1,
            ⟨if (s.hashes.getD
                  (if s.next = s.hashes.length then 0 else s.next)
                  (0, default)).2.cached then
                (s.hashes.getD
                  (if s.next = s.hashes.length then 0 else s.next)
                  (0, default)).2.text
              else
                z85 (s.hashes.getD
                  (if s.next = s.hashes.length then 0 else s.next)
                  (0, default)).1, true⟩)
        ft := s.ft.add_text
          (if (s.hashes.getD
                (if s.next = s.hashes.length then 0 else s.next)
                (0, default)).2.cached then
              (s.hashes.getD
                (if s.next = s.hashes.length then 0 else s.next)
                (0, default)).2.text
            else
              z85 (s.hashes.getD
                (if s.next = s.hashes.length then 0 else s.next)
                (0, default)).1) rnd
        emittedKeys := s.emittedKeys ++
          [(s.hashes.getD
              (if s.next = s.hashes.length then 0 else s.next)
              (0, default)).1] } := by
  unfold seedBody
  rw [hne, hinit]
  rfl

/-- C2 (amended): after an add_text into the group at the cursor and
exactly TEXT_SIZE + 1 subsequent successful draw_next calls (the first
successful call consumes the one-tick warmup), that group's count equals
TEXT_SIZE, and any draw_next performed on the resulting groups while that
group is the active one returns false. -/
theorem C2_group_progression (st : falling_text) (src : List Char)
    (rnd : Nat → Int × Int) (ts : List Int)
    (hoff : st.offset < st.groups.length)
    (hb : ∀ g ∈ st.groups, g.count < ucharMod)
    (hsrc : text_size ≤ src.length)
    (hts : ts.length = text_size + 1)
    (hrun : (runDraws (st.add_text src rnd) ts).isSome = true) :
    ((runDraws (st.add_text src rnd) ts).getD st).groups.get? st.offset =
      some ⟨src.take text_size, text_size⟩ ∧
    (∀ (st3 : falling_text) (now : Int), st3.offset = st.offset →
      st3.groups = ((runDraws (st.add_text src rnd) ts).getD st).groups →
      st3.draw_next now = (false, st3)) := by
  cases hres : runDraws (st.add_text src rnd) ts with
  | none => rw [hres] at hrun; simp at hrun
  | some st2 =>
    have hb1 : ∀ g ∈ (st.add_text src rnd).groups, g.count < ucharMod := by
      intro g hg
      simp only [falling_text.add_text] at hg
      rcases List.mem_or_eq_of_mem_set hg with hmem | rfl
      · exact hb g hmem
      · norm_num [ucharMax, ucharMod]
    obtain ⟨hgr, _⟩ := runDraws_effect ts _ st2 hres hb1
    have hget : st2.groups.get? st.offset =
        some ⟨src.take text_size, text_size⟩ := by
      rw [hgr]
      show ((st.groups.set st.offset
        ⟨src.take text_size, ucharMax⟩).map _).get? st.offset = _
      rw [get?_map_comm, get?_set_self st.groups st.offset _ hoff]
      simp only [Option.map_some']
      rw [hts]
      norm_num [ucharMax, ucharMod, text_size]
    refine ⟨hget, ?_⟩
    intro st3 now h3off h3gr
    apply draw_next_false_of_done
    have hactive : st3.groups.getD st3.offset ⟨[], 0⟩ =
        ⟨src.take text_size, text_size⟩ := by
      rw [h3off, h3gr]
      exact getD_of_get?_eq _ _ _ _ hget
    rw [hactive]
    show text_size = (src.take text_size).length
    rw [List.length_take]
    omega

/-- Counterexample for C2 as stated: starting from a state whose group 1
can fall freely, an add_text into group 0 followed by exactly TEXT_SIZE
(40) successful draw_next calls leaves group 0 with count 39, not
TEXT_SIZE: the first successful call only consumes the warmup tick. -/
theorem C2_cex_forty_draws :
    ((runDraws (demoFT2.add_text demoSrc rnd0) (List.replicate 40 0)).map
        (fun s => (s.groups.getD 0 ⟨[], 0⟩).count)) = some 39 ∧
    (39 : Nat) ≠ text_size := by
  refine ⟨by decide, by decide⟩

/-- Witness for C2 on a concrete 41-draw run. -/
theorem C2_witness :
    (runDraws (demoFT2.add_text demoSrc rnd0)
      (List.replicate 41 0)).isSome = true ∧
    ((runDraws (demoFT2.add_text demoSrc rnd0)
        (List.replicate 41 0)).getD demoFT2).groups.get? 0 =
      some ⟨demoSrc.take text_size, text_size⟩ :=
  ⟨by decide,
    (C2_group_progression demoFT2 demoSrc rnd0 (List.replicate 41 0)
      (by decide) (by decide) (by decide) (by decide) (by decide)).1⟩

/-- C10: add_text changes only the group at the cursor and the slots
congruent to the cursor modulo GROUP_COUNT: every other group and slot
reads back unchanged, the paint deadline is untouched, and the cursor
becomes (offset + 1) mod GROUP_COUNT. -/
theorem C10_add_text_effect (st : falling_text) (src : List Char)
    (rnd : Nat → Int × Int) :
    (st.add_text src rnd).offset = (st.offset + 1) % group_count ∧
    (st.add_text src rnd).next = st.next ∧
    (∀ j, ¬ j = st.offset →
      (st.add_text src rnd).groups.get? j = st.groups.get? j) ∧
    (∀ i, ¬ i % group_count = st.offset →
      (st.add_text src rnd).locations.get? i = st.locations.get? i) := by
  refine ⟨rfl, rfl, ?_, ?_⟩
  · intro j hj
    exact get?_set_of_ne st.groups st.offset j _ fun hc => hj hc.symm
  · intro i hi
    simp only [falling_text.add_text]
    rw [get?_mapIdxFrom]
    simp only [Nat.zero_add]
    cases st.locations.get? i with
    | none => rfl
    | some loc => simp [hi]

/-- Witness for C10 reading back an untouched group and slot. -/
theorem C10_witness :
    (demoFT.add_text demoSrc rnd0).offset = (0 + 1) % group_count ∧
    (demoFT.add_text demoSrc rnd0).groups.get? 3 = demoFT.groups.get? 3 :=
  ⟨(C10_add_text_effect demoFT demoSrc rnd0).1,
    (C10_add_text_effect demoFT demoSrc rnd0).2.2.1 3 (by decide)⟩

/-- C6 (amended): after the STEADY loop processes a full-chain message
whose blocks carry the transaction hash set T, the mempool carousel
contains no h in T — provided h is not itself listed in the
get_transaction_pool reply consumed by a triggered mempool
resynchronization, which replaces the carousel wholesale. -/
theorem C6_mempool_coherence (st : SteadyState) (fb : List block)
    (rpcPool : List Nat) (h : Nat)
    (hT : ∃ bl ∈ fb, h ∈ bl.tx_hashes)
    (hrpc : h ∉ rpcPool) :
    mapContains (process_full_chain st fb rpcPool).txpool h = false := by
  have herase : mapContains
      (fb.foldl (fun m bl => bl.tx_hashes.foldl mapErase m) st.txpool) h
      = false :=
    mapContains_foldl_blocks_of_mem fb st.txpool h hT
  obtain ⟨bl, hbl, _⟩ := hT
  unfold process_full_chain
  cases hlast : fb.getLast? with
  | none =>
    obtain ⟨a, l, rfl⟩ : ∃ a l, fb = a :: l := by
      cases fb with
      | nil => simp at hbl
      | cons a l => exact ⟨a, l, rfl⟩
    simp [List.getLast?] at hlast
  | some back =>
    dsimp only
    by_cases hm : st.minimal_block_prev = back.prev_id
    · rw [if_pos hm]
      unfold show_system_warning
      by_cases hw : st.current_head ≠ back.prev_id
      · rw [if_pos hw]
        exact mapContains_sync_mempool rpcPool h hrpc
      · rw [if_neg hw]
        exact herase
    · rw [if_neg hm]
      exact herase

/-- Counterexample for C6 as stated: a full-chain block confirming tx 3
triggers the new-block overlay with a stale displayed head, so the
mempool is resynchronized from an RPC reply that still lists tx 3, and
the carousel contains 3 right after processing. -/
theorem C6_cex_resync_readds_tx :
    (∃ bl ∈ [block.mk 5 [3]], 3 ∈ bl.tx_hashes) ∧
    mapContains
      (process_full_chain ⟨[], 0, 0, 5, 7, 9, 0⟩ [block.mk 5 [3]] [3]).txpool
      3 = true := by
  refine ⟨by decide, by decide⟩

/-- Witness for C6 with an RPC reply that no longer lists the tx. -/
theorem C6_witness :
    mapContains
      (process_full_chain ⟨[(3, default)], 0, 0, 5, 7, 9, 0⟩
        [block.mk 5 [3]] []).txpool 3 = false :=
  C6_mempool_coherence ⟨[(3, default)], 0, 0, 5, 7, 9, 0⟩
    [block.mk 5 [3]] [] 3 (by decide) (by decide)

/-- C7 (amended): within one wait, once the seeding iterator is
initialized, every further seeding from a non-empty store emits the entry
at the same (end-wrapped) position — the iterator never advances, so the
emission is constant rather than round-robin over the combined stores —
and the entry's base85 text is computed only when not yet cached, then
cached; all other entries are untouched. -/
theorem C7_seed_selection (z85 : Nat → List Char) (rnd : Nat → Int × Int)
    (s : SeedState) (nx : Nat)
    (hne : s.hashes.isEmpty = false)
    (hinit : s.init = true)
    (hle : s.next ≤ s.hashes.length)
    (hnx : nx = if s.next = s.hashes.length then 0 else s.next) :
    (seedBody z85 rnd s).emittedKeys =
      s.emittedKeys ++ [(s.hashes.getD nx (0, default)).1] ∧
    (seedBody z85 rnd s).next = nx ∧
    (seedBody z85 rnd s).init = true ∧
    (seedBody z85 rnd s).hashes.get? nx = some
      ((s.hashes.getD nx (0, default)).1,
        ⟨if (s.hashes.getD nx (0, default)).2.cached then
            (s.hashes.getD nx (0, default)).2.text
          else z85 (s.hashes.getD nx (0, default)).1, true⟩) ∧
    (∀ j, ¬ j = nx →
      (seedBody z85 rnd s).hashes.get? j = s.hashes.get? j) := by
  have hpos : 0 < s.hashes.length := by
    cases hsh : s.hashes with
    | nil => rw [hsh] at hne; simp at hne
    | cons a l => simp [hsh]
  have hnxlt : nx < s.hashes.length := by
    by_cases hcase : s.next = s.hashes.length
    · rw [hnx, if_pos hcase]; exact hpos
    · rw [hnx, if_neg hcase]; omega
  rw [seedBody_nonempty z85 rnd s hne hinit, ← hnx]
  refine ⟨rfl, rfl, rfl, ?_, ?_⟩
  · exact get?_set_self s.hashes nx _ hnxlt
  · intro j hj
    exact get?_set_of_ne s.hashes nx j _ fun hc => hj hc.symm

/-- Counterexample for C7 as stated: with a two-entry store, a run of the
seeding loop that performs two seedings emits the same identifier twice,
while round-robin emission over the store would emit the two identifiers
in turn. -/
theorem C7_cex_not_round_robin :
    ((seedLoop z85demo rnd0 5 demoSeed 0).map SeedState.emittedKeys)
      = some [1, 1] ∧
    roundRobinKeys [1, 2] 0 2 = [1, 2] ∧ ([1, 1] : List Nat) ≠ [1, 2] := by
  refine ⟨by decide, by decide, by decide⟩

/-- Witness for C7 on a concrete initialized seeding state. -/
theorem C7_witness :
    (seedBody z85demo rnd0 demoSeed2).emittedKeys = [] ++ [1] ∧
    (seedBody z85demo rnd0 demoSeed2).next = 0 :=
  ⟨(C7_seed_selection z85demo rnd0 demoSeed2 0 (by decide) (by decide)
      (by decide) (by decide)).1,
    (C7_seed_selection z85demo rnd0 demoSeed2 0 (by decide) (by decide)
      (by decide) (by decide)).2.1⟩

/-- C3 (amended): the dedicated disconnected wait zmq::wait_for polls the
wake descriptor alongside the sub socket and yields the distinguished
terminated error whenever the wake descriptor is readable; the timed poll
inside wait_for_pub polls only the sub socket, and cancellation there is
through the running flag — once is_running() reads false, wait_for_pub
returns the terminated error at the top of its next iteration. -/
theorem C3_wake_and_flag_termination :
    (PollFd.exit ∈ zmq_wait_for_poll_set) ∧
    (∀ ready : PollFd → Bool, ready PollFd.exit = true →
      zmq_wait_for ready = Except.error ZErr.eterm) ∧
    (∀ (z85 : Nat → List Char) (rnd : Nat → Int × Int)
        (running : Nat → Bool) (obs : Nat → IterObs) (seedFuel : Nat)
        (start : Int) (fuel k : Nat) (now slippage : Int) (s : SeedState),
      running k = false →
      waitForPub z85 rnd running obs seedFuel start (fuel + 1) k now
        slippage s = some (Except.error ZErr.eterm)) := by
  refine ⟨by decide, ?_, ?_⟩
  · intro ready h
    simp [zmq_wait_for, h]
  · intro z85 rnd running obs seedFuel start fuel k now slippage s h
    simp [waitForPub, h]

/-- Counterexample for C3 as stated: the blocking socket poll of
wait_for_pub polls the sub socket but not the wake descriptor. -/
theorem C3_cex_pub_poll_lacks_wake :
    PollFd.sub ∈ wait_for_pub_poll_set ∧
    PollFd.exit ∉ wait_for_pub_poll_set := by
  refine ⟨by decide, by decide⟩

/-- Witness for C3: a wake-ready disconnected wait and a cleared running
flag both produce the terminated error. -/
theorem C3_witness :
    zmq_wait_for (fun _ => true) = Except.error ZErr.eterm ∧
    waitForPub z85demo rnd0 (fun _ => false)
      (fun _ => ⟨false, RecvRes.err ZErr.other, 0, 0⟩) 1 0 1 0 0 0 demoSeed
      = some (Except.error ZErr.eterm) :=
  ⟨C3_wake_and_flag_termination.2.1 (fun _ => true) rfl,
    C3_wake_and_flag_termination.2.2 z85demo rnd0 (fun _ => false)
      (fun _ => ⟨false, RecvRes.err ZErr.other, 0, 0⟩) 1 0 0 0 0 0 demoSeed
      rfl⟩

end Motrix
